import Mathlib

/-!
Verification of the Backup Catalog Resolver and Contact Schema Adapter of
`Python_iOS/extract_ios_contacts.py`.

The Python source is shallowly embedded: SQLite storage values are modelled by
`SqlVal` (NULL / INTEGER / TEXT storage classes; REAL and BLOB do not occur in
the columns the extractor reads), database tables by lists of rows, and the
Python string operations used by the code (`.strip()`, `.lower()`, `in`,
`str()`, truthiness, `or`) by explicit executable functions over `List Char`.
-/

set_option maxRecDepth 8192

namespace IOSContacts

/- ===================== definitions ===================== -/

/-- Whitespace characters stripped by Python's `str.strip()` (ASCII range). -/
def isSpaceB (c : Char) : Bool :=
  decide (c = ' ') || decide (c = '\t') || decide (c = '\n') || decide (c = '\r') ||
  decide (c = '\x0b') || decide (c = '\x0c')

/-- Python `str.strip()` on the underlying character list. -/
def stripL (l : List Char) : List Char :=
  ((l.dropWhile isSpaceB).reverse.dropWhile isSpaceB).reverse

/-- Python `s.strip()`. -/
def pyStrip (s : String) : String := ⟨stripL s.toList⟩

/-- Python `s.lower()` (ASCII case folding, which is all the code relies on). -/
def pyLower (s : String) : String := ⟨s.toList.map Char.toLower⟩

/-- Model of `needle.isPrefixOf hay` in executable form (structural, `DecidableEq Char`). -/
def prefixB : List Char → List Char → Bool
  | [], _ => true
  | _ :: _, [] => false
  | a :: as, b :: bs => decide (a = b) && prefixB as bs

/-- Substring test on character lists: Python's `needle in hay`. -/
def infixB (needle : List Char) : List Char → Bool
  | [] => needle.isEmpty
  | b :: bs => prefixB needle (b :: bs) || infixB needle bs

/-- Python `needle in hay` on strings. -/
def strIn (needle hay : String) : Bool := infixB needle.toList hay.toList

/-- Python `sum(ch.isdigit() for ch in s)`. -/
def digitCount (s : String) : Nat := s.toList.countP Char.isDigit

/-- An SQLite storage value as seen by the `sqlite3` Python driver:
NULL, INTEGER, or TEXT (the extractor never reads REAL/BLOB columns). -/
inductive SqlVal where
  | null
  | intV (n : Int)
  | textV (s : String)
deriving DecidableEq

/-- Python `str(v)` on a fetched SQLite value (`str(None) = "None"`, but the
code always checks for NULL before calling `str`). -/
def pyStr : SqlVal → String
  | .null => "None"
  | .intV n => toString n
  | .textV s => s

/-- Python truthiness of a fetched SQLite value. -/
def pyTruthy : SqlVal → Bool
  | .null => false
  | .intV n => decide (n ≠ 0)
  | .textV s => decide (s ≠ "")

/-- Python `v or ""` as used on person-name fields. -/
def pyOr (v : SqlVal) : SqlVal := if pyTruthy v then v else .textV ""

/-- Last character of a character list (`s.endswith("/")` support). -/
def lastC : List Char → Option Char
  | [] => none
  | [a] => some a
  | _ :: b :: t => lastC (b :: t)

/-- POSIX `os.path.join(a, b)`: an absolute second component replaces the
first; otherwise a separator is inserted unless one is already present. -/
def osPathJoin (a b : String) : String :=
  if b.toList.head? = some '/' then b
  else if a.toList = [] then b
  else if lastC a.toList = some '/' then ⟨a.toList ++ b.toList⟩
  else ⟨a.toList ++ '/' :: b.toList⟩

/-- Python `file_id[:2]`. -/
def pyTake2 (s : String) : String := ⟨s.toList.take 2⟩

/-- Model of `backup_file_path`: files are stored as `<backup_dir>/<first 2 chars>/<fileID>`
(`os.path.join(backup_dir, file_id[:2], file_id)`). -/
def backup_file_path (backup_dir file_id : String) : String :=
  osPathJoin (osPathJoin backup_dir (pyTake2 file_id)) file_id

/-- Python `str.replace(old, new)` specialized to a single-character search
string (each of the four substrings replaced by `vcard_escape` is one
character long, so the replacement acts independently on every character). -/
def replace1 (old : Char) (new : List Char) (l : List Char) : List Char :=
  l.flatMap (fun c => if c = old then new else [c])

/-- Model of `vcard_escape`: backslash is escaped first, then `;`, `,`, and newline
(`s.replace("\\", "\\\\").replace(";", r"\;").replace(",", r"\,").replace("\n", r"\n")`).
The `(s or "")` guard is the identity on every actual string. -/
def vcard_escape (s : String) : String :=
  ⟨replace1 '\n' ['\\', 'n']
    (replace1 ',' ['\\', ',']
      (replace1 ';' ['\\', ';']
        (replace1 '\\' ['\\', '\\'] s.toList)))⟩

/-- The per-character encoding `vcard_escape` amounts to. -/
def escChar (c : Char) : List Char :=
  if c = '\\' then ['\\', '\\']
  else if c = ';' then ['\\', ';']
  else if c = ',' then ['\\', ',']
  else if c = '\n' then ['\\', 'n']
  else [c]

/-- Second character of an escape pair, decoded. -/
def unesc (c : Char) : Char := if c = 'n' then '\n' else c

/-- Left-to-right decoder for the escape format: every backslash begins a
two-character pair. -/
def decodeEsc : List Char → Option (List Char)
  | [] => some []
  | c :: t =>
    if c = '\\' then
      match t with
      | [] => none
      | d :: t' => (decodeEsc t').map (fun r => unesc d :: r)
    else (decodeEsc t).map (fun r => c :: r)

/- ---- catalog resolver ---- -/

/-- A row of the manifest's `Files` table (`fileID, domain, relativePath`).
A NULL `relativePath` is mapped to `""` by the scoring code and matches no
`LIKE` pattern; it is modelled as the resulting string. -/
structure CatRow where
  fileID : String
  domain : String
  relativePath : String
deriving DecidableEq

/-- Python `rp.count("/")`. -/
def countSep (s : String) : Nat := s.toList.countP (fun c => decide (c = '/'))

/-- The candidate score of `pick_best_contacts_db`, a function of the
lowercased relative path: +10 for the primary database name or a `contacts`
marker, −5 for an `images` marker, +5 for the `Application Support/AddressBook`
layout prefix, plus the number of path separators. -/
def score_of (relativePath : String) : Int :=
  (if strIn "addressbook.sqlitedb" (pyLower relativePath)
      || strIn "contacts" (pyLower relativePath) then 10 else 0)
    + (if strIn "images" (pyLower relativePath) then -5 else 0)
    + (if strIn "application support/addressbook" (pyLower relativePath) then 5 else 0)
    + (countSep (pyLower relativePath) : Int)

/-- Selection step of `pick_best_contacts_db`: Python's stable descending sort
by score followed by taking the first element keeps the earliest candidate
among those of maximal score, which is what this left fold computes. The
manifest query producing the candidates and the on-disk existence check on the
chosen entry are outside the model. -/
def pick_best_entry (cands : List CatRow) : Option CatRow :=
  match cands with
  | [] => none
  | c :: cs =>
    some (cs.foldl
      (fun best r => if score_of best.relativePath < score_of r.relativePath then r else best) c)

/-- The `seen` loop of `find_contact_dbs`: keep a row only if its `fileID`
has not occurred before. -/
def dedupGo (seen : List String) : List CatRow → List CatRow
  | [] => []
  | r :: rs =>
    if r.fileID ∈ seen then dedupGo seen rs else r :: dedupGo (r.fileID :: seen) rs

/-- Model of `find_contact_dbs`: run one query per pattern in order, accumulate all
matching rows, then deduplicate by `fileID` (first occurrence wins). A pattern
is modelled as the Boolean predicate its SQL `LIKE` applies to
`relativePath`. -/
def find_contact_dbs (files : List CatRow) (pats : List (String → Bool)) : List CatRow :=
  dedupGo [] (pats.flatMap (fun p => files.filter (fun r => p r.relativePath)))

/-- C2 counterexample data: an images entry at depth 3 whose path also carries
a `contacts` segment and the layout prefix. -/
def c2img : CatRow :=
  ⟨"f1", "HomeDomain", "Application Support/AddressBook/contacts/AddressBookImages.sqlitedb"⟩

/-- C2 counterexample data: the primary database entry at depth 2. -/
def c2ab : CatRow := ⟨"f2", "HomeDomain", "x/y/AddressBook.sqlitedb"⟩

/- ---- canonical contacts ---- -/

/-- The four auxiliary relation kinds. -/
inductive RelKind where
  | phones
  | emails
  | addresses
  | urls
deriving DecidableEq

/-- A canonical contact record as built by both loaders: `p[...] or ""` keeps
the raw fetched value when truthy and substitutes `""` otherwise, so the name
fields remain SQLite values. -/
structure Contact where
  id : SqlVal
  first : SqlVal
  middle : SqlVal
  last : SqlVal
  org : SqlVal
  note : SqlVal
  phones : List String
  emails : List String
  addresses : List String
  urls : List String
deriving DecidableEq

/-- Projection of a contact's auxiliary collection by relation kind. -/
def Contact.aux (c : Contact) : RelKind → List String
  | .phones => c.phones
  | .emails => c.emails
  | .addresses => c.addresses
  | .urls => c.urls

/- ---- legacy AddressBook schema ---- -/

/-- A row of `ABPerson` (`ROWID as id, First, Last, Middle, Organization, Note`). -/
structure ABPersonRow where
  id : SqlVal
  First : SqlVal
  Last : SqlVal
  Middle : SqlVal
  Organization : SqlVal
  Note : SqlVal

/-- A row of `ABMultiValue` (`record_id, property, value, label`). -/
structure MVRow where
  record_id : SqlVal
  property : SqlVal
  value : SqlVal
  label : SqlVal

/-- Model of `norm_label`: numeric label ids resolve through the `ABMultiValueLabel`
map (falling back to their decimal string form), then `.strip().lower()`.
The map itself is the dictionary the code builds from that table. -/
def norm_label (label_map : Int → Option String) : SqlVal → String
  | .null => ""
  | .intV n => pyLower (pyStrip ((label_map n).getD (toString n)))
  | .textV s => pyLower (pyStrip s)

/-- Rule 1 flag: `("phone" in label) or ("mobile" in label) or ("cell" in label)
or prop in (3, 7)`. -/
def phoneRule (label : String) (prop : SqlVal) : Bool :=
  strIn "phone" label || strIn "mobile" label || strIn "cell" label ||
  decide (prop = .intV 3) || decide (prop = .intV 7)

/-- Rule 2 flag: `("email" in label) or ("e-mail" in label) or prop in (1, 4)`. -/
def emailRule (label : String) (prop : SqlVal) : Bool :=
  strIn "email" label || strIn "e-mail" label ||
  decide (prop = .intV 1) || decide (prop = .intV 4)

/-- Rule 3 flag: `("address" in label) or prop == 6`. -/
def addrRule (label : String) (prop : SqlVal) : Bool :=
  strIn "address" label || decide (prop = .intV 6)

/-- Rule 4 flag: `("url" in label) or ("homepage" in label)`. -/
def urlRule (label : String) : Bool :=
  strIn "url" label || strIn "homepage" label

/-- Shape heuristic, email half: `isinstance(val, str) and "@" in val`. -/
def shapeEmailB : SqlVal → Bool
  | .textV s => strIn "@" s
  | _ => false

/-- Shape heuristic, phone half: the `elif` branch — a string value without
`"@"` whose digit count is at least 7. -/
def shapePhoneB : SqlVal → Bool
  | .textV s => !strIn "@" s && decide (7 ≤ digitCount s)
  | _ => false

/-- The `if is_phone: ... elif is_email: ... elif is_addr: ... elif is_url:`
dispatch — fixed priority, first match wins, no match drops the row. -/
def classifyCat (is_phone is_email is_addr is_url : Bool) : Option RelKind :=
  if is_phone then some .phones
  else if is_email then some .emails
  else if is_addr then some .addresses
  else if is_url then some .urls
  else none

/-- Classification of one `ABMultiValue` row (the body of the row loop of
`load_contacts_from_ab_schema`): returns the relation the row lands in and
the stripped value appended there, or `none` when the row is skipped
(NULL value, empty-after-strip value, or no rule matched). -/
def classifyMV (label_map : Int → Option String) (r : MVRow) : Option (RelKind × String) :=
  match r.value with
  | .null => none
  | v =>
    let label := norm_label label_map r.label
    let noneMatched := !(phoneRule label r.property || emailRule label r.property ||
      addrRule label r.property || urlRule label)
    let is_email := emailRule label r.property || (noneMatched && shapeEmailB v)
    let is_phone := phoneRule label r.property || (noneMatched && shapePhoneB v)
    let sval := pyStrip (pyStr v)
    if sval = "" then none
    else (classifyCat is_phone is_email (addrRule label r.property) (urlRule label)).map
      (fun rel => (rel, sval))

/-- The four `defaultdict(list)` maps, keyed by relation kind and owner id. -/
def MapsT : Type := RelKind → SqlVal → List String

/-- All four maps start empty. -/
def emptyMaps : MapsT := fun _ _ => []

/-- Model of `defaultdict` append: add one value at the end of one owner's list. -/
def addVal (m : MapsT) (rel : RelKind) (k : SqlVal) (s : String) : MapsT :=
  fun rel' k' => if rel' = rel ∧ k' = k then m rel' k' ++ [s] else m rel' k'

/-- One iteration of the `ABMultiValue` row loop. -/
def processMVRow (label_map : Int → Option String) (m : MapsT) (r : MVRow) : MapsT :=
  match classifyMV label_map r with
  | none => m
  | some (rel, sval) => addVal m rel r.record_id sval

/-- Model of `load_contacts_from_ab_schema`: classify every multi-value row into the
four maps, then emit one contact per `ABPerson` row, looking its id up in each
map with `[]` as the default. -/
def load_contacts_from_ab_schema (label_map : Int → Option String)
    (persons : List ABPersonRow) (mv_rows : List MVRow) : List Contact :=
  let maps := mv_rows.foldl (processMVRow label_map) emptyMaps
  persons.map fun p =>
    { id := p.id, first := pyOr p.First, middle := pyOr p.Middle, last := pyOr p.Last,
      org := pyOr p.Organization, note := pyOr p.Note,
      phones := maps RelKind.phones p.id, emails := maps RelKind.emails p.id,
      addresses := maps RelKind.addresses p.id, urls := maps RelKind.urls p.id }

/- ---- modern Core Data schema ---- -/

/-- A table: its column-name set (`PRAGMA table_info`) and its rows, each a
total map from column name to fetched value. -/
structure Table where
  cols : List String
  rows : List (String → SqlVal)

/-- The opened record database: its named tables. -/
structure DB where
  tables : List (String × Table)

/-- Table lookup by name. -/
def getTable (db : DB) (name : String) : Option Table :=
  (db.tables.find? (fun p => decide (p.1 = name))).map Prod.snd

/-- Model of `table_exists`. -/
def table_exists (db : DB) (name : String) : Bool := (getTable db name).isSome

/-- Model of `pick_col` / the `next((c for c in cands if c in cols), None)` probes:
the first alias present among the table's actual columns. -/
def pick_col (tb : Table) (cands : List String) : Option String :=
  cands.find? (fun c => decide (c ∈ tb.cols))

/-- Model of `candidate_person_tables`. -/
def candidate_person_tables : List String := ["ZABCDRECORD", "ZCONTACT", "ZPERSON", "ZABPERSON"]

/-- Alias lists handed to `pick_col` for each optional semantic role. -/
def firstAliases : List String := ["ZFIRSTNAME", "ZFIRST", "ZFIRST_NAME"]

/-- Aliases for the last-name role. -/
def lastAliases : List String := ["ZLASTNAME", "ZLAST", "ZLAST_NAME"]

/-- Aliases for the middle-name role. -/
def midAliases : List String := ["ZMIDDLENAME", "ZMN", "ZMIDDLE"]

/-- Aliases for the organization role. -/
def orgAliases : List String := ["ZORGANIZATION", "ZORGANIZATIONNAME", "ZCOMPANY"]

/-- Aliases for the note role. -/
def noteAliases : List String := ["ZNOTE"]

/-- Aliases for the deletion-flag role. -/
def delAliases : List String := ["ZISDELETED", "ZTRASHED", "ZMARKEDFORDELETE"]

/-- Projection of an optional column: the resolved column's value, or the SQL
literal `''` when no alias matched (`", '' as first"` etc.). -/
def projField (tb : Table) (cands : List String) (row : String → SqlVal) : SqlVal :=
  match pick_col tb cands with
  | some c => row c
  | none => .textV ""

/-- Projection of the deletion flag: the SQL literal `0` when no alias
matched (`", 0 as is_deleted"`). -/
def projDel (tb : Table) (row : String → SqlVal) : SqlVal :=
  match pick_col tb delAliases with
  | some c => row c
  | none => .intV 0

/-- Candidate child tables per relation kind (`map_defs`). -/
def relTables : RelKind → List String
  | .phones => ["ZABCDPHONENUMBER", "ZPHONE", "ZABPHONE"]
  | .emails => ["ZABCDEMAILADDRESS", "ZEMAIL", "ZABEMAIL"]
  | .addresses => ["ZABCDPOSTALADDRESS", "ZPOSTALADDRESS", "ZADDRESS"]
  | .urls => ["ZABCDURLADDRESS", "ZURLADDRESS", "ZURL"]

/-- Candidate owner columns, identical for all four relations (`map_defs`). -/
def relOwnerCands : List String := ["ZOWNER", "ZCONTACT", "ZPERSON"]

/-- Candidate value columns per relation kind (`map_defs`). -/
def relValues : RelKind → List String
  | .phones => ["ZFULLNUMBER", "ZVALUE", "ZPHONENUMBER"]
  | .emails => ["ZADDRESS", "ZVALUE", "ZEMAIL"]
  | .addresses => ["ZSTREET", "ZVALUE", "ZFULLADDRESS"]
  | .urls => ["ZURL", "ZVALUE"]

/-- Model of `locate_child`: walk the candidate tables in order; for an existing table
probe owner and value aliases, returning the first table where both are
found; an existing table missing either is skipped. -/
def locate_child (db : DB) :
    List String → List String → List String → Option (String × String × String)
  | [], _, _ => none
  | t :: ts, owners, values =>
    match getTable db t with
    | none => locate_child db ts owners values
    | some tb =>
      match pick_col tb owners, pick_col tb values with
      | some o, some v => some (t, o, v)
      | _, _ => locate_child db ts owners values

/-- One iteration of the child-row loop: skip NULL values, otherwise append
`str(value)` to the owner's list. -/
def childStep (o v : String) (m : SqlVal → List String) (row : String → SqlVal) :
    SqlVal → List String :=
  if row v = SqlVal.null then m
  else fun k => if k = row o then m k ++ [pyStr (row v)] else m k

/-- The `child_maps[key]` dictionary built from one located child table. -/
def buildChildMap (tb : Table) (o v : String) : SqlVal → List String :=
  tb.rows.foldl (childStep o v) (fun _ => [])

/-- A relation's owner-to-values map: empty when `locate_child` found no
usable table (the `[warn] ... skipping` path). -/
def childMapsOf (db : DB) (rel : RelKind) : SqlVal → List String :=
  match locate_child db (relTables rel) relOwnerCands (relValues rel) with
  | none => fun _ => []
  | some (t, o, v) =>
    match getTable db t with
    | none => fun _ => []
    | some tb => buildChildMap tb o v

/-- The detected person table: the first candidate name that exists, paired
with its table. -/
def personTableOf (db : DB) : Option (String × Table) :=
  candidate_person_tables.findSome? (fun t => (getTable db t).map (fun tb => (t, tb)))

/-- One output contact of the modern loader: resolved name projections and
the four child-map lookups at the person's `Z_PK`. -/
def mkModernContact (db : DB) (tb : Table) (row : String → SqlVal) : Contact :=
  { id := row "Z_PK"
    first := pyOr (projField tb firstAliases row)
    middle := pyOr (projField tb midAliases row)
    last := pyOr (projField tb lastAliases row)
    org := pyOr (projField tb orgAliases row)
    note := pyOr (projField tb noteAliases row)
    phones := childMapsOf db .phones (row "Z_PK")
    emails := childMapsOf db .emails (row "Z_PK")
    addresses := childMapsOf db .addresses (row "Z_PK")
    urls := childMapsOf db .urls (row "Z_PK") }

/-- Model of `load_contacts_from_coredata_schema`: fail if no person table candidate
exists; otherwise skip person rows whose resolved deletion flag is truthy
(`if p["is_deleted"]: continue`) and emit one contact per remaining row. -/
def load_contacts_from_coredata_schema (db : DB) : Except String (List Contact) :=
  match personTableOf db with
  | none => .error "Could not find person table in Core Data schema"
  | some (_, tb) =>
    .ok ((tb.rows.filter (fun row => !pyTruthy (projDel tb row))).map (mkModernContact db tb))

/-- Specification form of `locateChildTable` (§4.3): the first candidate table
that exists and carries both a matching owner alias and a matching value
alias, together with those first matching aliases. Used to state the
refinement claim C8 against `locate_child`. -/
def goodChild (db : DB) (owners values : List String) (t : String) : Bool :=
  match getTable db t with
  | none => false
  | some tb => (pick_col tb owners).isSome && (pick_col tb values).isSome

/-- Companion to `goodChild`: the result `locateChildTable` is specified to
return. -/
def locateChildSpec (db : DB) (tbls owners values : List String) :
    Option (String × String × String) :=
  match tbls.find? (goodChild db owners values) with
  | none => none
  | some t =>
    match getTable db t with
    | none => none
    | some tb =>
      match pick_col tb owners, pick_col tb values with
      | some o, some v => some (t, o, v)
      | _, _ => none

/- ===================== theorems ===================== -/

theorem prefixB_iff (n : List Char) : ∀ h : List Char,
    prefixB n h = true ↔ ∃ t, h = n ++ t := by
  induction n with
  | nil =>
    intro h
    simp [prefixB]
  | cons a as ih =>
    intro h
    cases h with
    | nil =>
      simp [prefixB]
    | cons b bs =>
      simp only [prefixB, Bool.and_eq_true, decide_eq_true_eq, ih bs]
      constructor
      · rintro ⟨rfl, t, rfl⟩
        exact ⟨t, rfl⟩
      · rintro ⟨t, ht⟩
        injection ht with h1 h2
        exact ⟨h1.symm, t, h2⟩

theorem infixB_iff (n : List Char) : ∀ h : List Char,
    infixB n h = true ↔ ∃ s t, h = s ++ n ++ t := by
  intro h
  induction h with
  | nil =>
    simp only [infixB, List.isEmpty_iff]
    constructor
    · rintro rfl
      exact ⟨[], [], rfl⟩
    · rintro ⟨s, t, hst⟩
      rcases List.append_eq_nil.1 hst.symm with ⟨h1, h2⟩
      exact (List.append_eq_nil.1 h1).2
  | cons b bs ih =>
    simp only [infixB, Bool.or_eq_true, prefixB_iff, ih]
    constructor
    · rintro (⟨t, ht⟩ | ⟨s, t, hst⟩)
      · exact ⟨[], t, by simp [ht]⟩
      · exact ⟨b :: s, t, by simp [hst]⟩
    · rintro ⟨s, t, hst⟩
      cases s with
      | nil => exact Or.inl ⟨t, by simpa using hst⟩
      | cons x xs =>
        injection hst with h1 h2
        exact Or.inr ⟨xs, t, h2⟩

theorem strIn_trans {a b c : String} (h1 : strIn a b = true) (h2 : strIn b c = true) :
    strIn a c = true := by
  unfold strIn at *
  rw [infixB_iff] at *
  obtain ⟨s1, t1, he1⟩ := h1
  obtain ⟨s2, t2, he2⟩ := h2
  refine ⟨s2 ++ s1, t1 ++ t2, ?_⟩
  rw [show c.toList = c.data from rfl] at he2
  rw [show b.toList = b.data from rfl, show a.toList = a.data from rfl] at he1
  simp [he2, he1]

theorem mem_dropWhile {p : Char → Bool} {c : Char} (hpc : p c = false) :
    ∀ {l : List Char}, c ∈ l → c ∈ l.dropWhile p := by
  intro l
  induction l with
  | nil => intro h; exact absurd h (List.not_mem_nil c)
  | cons a t ih =>
    intro hmem
    by_cases hpa : p a = true
    · rw [List.dropWhile_cons_of_pos hpa]
      rcases List.mem_cons.1 hmem with rfl | h
      · exact absurd hpa (by simp [hpc])
      · exact ih h
    · rw [List.dropWhile_cons_of_neg (by simpa using hpa)]
      exact hmem

theorem stripL_ne_nil {c : Char} {l : List Char} (hc : c ∈ l) (hsp : isSpaceB c = false) :
    stripL l ≠ [] := by
  unfold stripL
  intro hnil
  have h1 : c ∈ l.dropWhile isSpaceB := mem_dropWhile hsp hc
  have h2 : c ∈ (l.dropWhile isSpaceB).reverse := List.mem_reverse.2 h1
  have h3 : c ∈ (l.dropWhile isSpaceB).reverse.dropWhile isSpaceB := mem_dropWhile hsp h2
  rw [List.reverse_eq_nil_iff.1 hnil] at h3
  exact (List.not_mem_nil c) h3

theorem pyStrip_ne_empty {c : Char} {s : String} (hc : c ∈ s.toList)
    (hsp : isSpaceB c = false) : pyStrip s ≠ "" := by
  unfold pyStrip
  intro h
  exact stripL_ne_nil hc hsp (by simpa [String.ext_iff] using h)

theorem lastC_append (l₁ : List Char) : ∀ l₂ : List Char, l₂ ≠ [] →
    lastC (l₁ ++ l₂) = lastC l₂ := by
  induction l₁ with
  | nil => intro l₂ _; rfl
  | cons a t ih =>
    intro l₂ h2
    have hne : t ++ l₂ ≠ [] := by
      intro hcon
      exact h2 (List.append_eq_nil.1 hcon).2
    cases hc : t ++ l₂ with
    | nil => exact absurd hc hne
    | cons c cs =>
      calc lastC (a :: t ++ l₂) = lastC (a :: c :: cs) := by rw [List.cons_append, hc]
        _ = lastC (c :: cs) := rfl
        _ = lastC (t ++ l₂) := by rw [hc]
        _ = lastC l₂ := ih l₂ h2

theorem lastC_mem : ∀ (l : List Char) (x : Char), lastC l = some x → x ∈ l := by
  intro l
  induction l with
  | nil => intro x h; exact absurd h (by simp [lastC])
  | cons a t ih =>
    intro x h
    cases t with
    | nil =>
      simp only [lastC, Option.some.injEq] at h
      simp [h]
    | cons b t' =>
      exact List.mem_cons_of_mem _ (ih x h)

/-- C3: for every backup root and catalog identity, the resolver produces the
physical path `<backupRoot>/<first two characters of identity>/<identity>` —
the first two characters of the identity as the shard directory, the full
identity as the file name, and nothing else (stated for a root that is a
normal absolute-path string, i.e. non-empty and without a trailing separator,
and an identity that is a genuine content-address token: non-empty and free of
path separators). -/
theorem c3_content_addressing (root id : String)
    (hroot : root ≠ "") (hlast : lastC root.toList ≠ some '/')
    (hid : id ≠ "") (hsl : '/' ∉ id.toList) :
    backup_file_path root id = root ++ "/" ++ pyTake2 id ++ "/" ++ id := by
  obtain ⟨c, rest, hidl⟩ : ∃ c rest, id.toList = c :: rest := by
    cases hl : id.toList with
    | nil => exact absurd (String.ext (by simpa using hl)) hid
    | cons c rest => exact ⟨c, rest, rfl⟩
  have hc : c ∈ id.toList := by rw [hidl]; exact List.mem_cons_self c rest
  have hcne : c ≠ '/' := fun h => hsl (h ▸ hc)
  have hrootl : root.toList ≠ [] := fun h => hroot (String.ext (by simpa using h))
  have htake2 : (pyTake2 id).toList = c :: rest.take 1 := by
    rw [show (pyTake2 id).toList = List.take 2 id.toList from rfl, hidl]
    rfl
  -- first join: root + shard directory
  have hj1 : osPathJoin root (pyTake2 id) = ⟨root.toList ++ '/' :: (c :: rest.take 1)⟩ := by
    unfold osPathJoin
    rw [htake2]
    rw [if_neg (by simp [hcne]), if_neg hrootl, if_neg hlast]
  -- second join: + identity as the file name
  have hmid : lastC (root.toList ++ '/' :: c :: rest.take 1) ≠ some '/' := by
    rw [lastC_append root.toList _ (by simp)]
    show lastC (c :: rest.take 1) ≠ some '/'
    intro hcon
    have : '/' ∈ c :: rest.take 1 := lastC_mem _ _ hcon
    rcases List.mem_cons.1 this with h | h
    · exact hcne h.symm
    · exact hsl (by rw [hidl]; exact List.mem_cons_of_mem _ (List.mem_of_mem_take h))
  have hj2 : backup_file_path root id =
      ⟨(root.toList ++ '/' :: c :: rest.take 1) ++ '/' :: id.toList⟩ := by
    unfold backup_file_path
    rw [hj1]
    unfold osPathJoin
    rw [if_neg (by rw [hidl]; simp [hcne]),
        if_neg (by simp),
        if_neg (by exact hmid)]
    rfl
  rw [hj2]
  apply String.ext
  simp only [String.data_append]
  show (root.data ++ '/' :: c :: rest.take 1) ++ '/' :: id.data =
    root.data ++ "/".data ++ (pyTake2 id).data ++ "/".data ++ id.data
  have : (pyTake2 id).data = c :: rest.take 1 := htake2
  rw [this]
  simp [String.toList]

/-- C3 witness: concrete instantiation at root `/backup`, identity `ab12cd`. -/
theorem c3_content_addressing_witness :
    backup_file_path "/backup" "ab12cd" =
      "/backup" ++ "/" ++ pyTake2 "ab12cd" ++ "/" ++ "ab12cd" :=
  c3_content_addressing "/backup" "ab12cd" (by decide) (by decide) (by decide) (by decide)

/- ---- vcard escaping ---- -/

theorem replace1_append (o : Char) (n a b : List Char) :
    replace1 o n (a ++ b) = replace1 o n a ++ replace1 o n b := by
  simp [replace1]

theorem vchain_append (a b : List Char) :
    replace1 '\n' ['\\', 'n'] (replace1 ',' ['\\', ','] (replace1 ';' ['\\', ';']
        (replace1 '\\' ['\\', '\\'] (a ++ b)))) =
      replace1 '\n' ['\\', 'n'] (replace1 ',' ['\\', ','] (replace1 ';' ['\\', ';']
        (replace1 '\\' ['\\', '\\'] a))) ++
      replace1 '\n' ['\\', 'n'] (replace1 ',' ['\\', ','] (replace1 ';' ['\\', ';']
        (replace1 '\\' ['\\', '\\'] b))) := by
  simp [replace1_append]

theorem vchain_single (c : Char) :
    replace1 '\n' ['\\', 'n'] (replace1 ',' ['\\', ','] (replace1 ';' ['\\', ';']
        (replace1 '\\' ['\\', '\\'] [c]))) = escChar c := by
  by_cases h1 : c = '\\'
  · subst h1; rfl
  by_cases h2 : c = ';'
  · subst h2; rfl
  by_cases h3 : c = ','
  · subst h3; rfl
  by_cases h4 : c = '\n'
  · subst h4; rfl
  simp [replace1, escChar, h1, h2, h3, h4]

theorem vcard_escape_eq (s : String) : vcard_escape s = ⟨s.toList.flatMap escChar⟩ := by
  unfold vcard_escape
  congr 1
  induction s.toList with
  | nil => rfl
  | cons c t ih =>
    rw [show c :: t = [c] ++ t from rfl, vchain_append, ih, vchain_single,
      List.flatMap_append, show ([c].flatMap escChar) = escChar c ++ [] by simp,
      List.append_nil]

theorem decode_escChar (c : Char) (rest : List Char) :
    decodeEsc (escChar c ++ rest) = (decodeEsc rest).map (fun r => c :: r) := by
  by_cases h1 : c = '\\'
  · subst h1
    show decodeEsc ('\\' :: '\\' :: rest) = _
    simp [decodeEsc, unesc]
  by_cases h2 : c = ';'
  · subst h2
    show decodeEsc ('\\' :: ';' :: rest) = _
    simp [decodeEsc, unesc]
  by_cases h3 : c = ','
  · subst h3
    show decodeEsc ('\\' :: ',' :: rest) = _
    simp [decodeEsc, unesc]
  by_cases h4 : c = '\n'
  · subst h4
    show decodeEsc ('\\' :: 'n' :: rest) = _
    simp [decodeEsc, unesc]
  have hesc : escChar c = [c] := by simp [escChar, h1, h2, h3, h4]
  rw [hesc]
  show decodeEsc (c :: rest) = (decodeEsc rest).map (fun r => c :: r)
  conv_lhs => unfold decodeEsc
  rw [if_neg h1]

theorem decode_flatMap (l : List Char) : decodeEsc (l.flatMap escChar) = some l := by
  induction l with
  | nil => rfl
  | cons c t ih =>
    rw [List.flatMap_cons, decode_escChar, ih]
    rfl

/-- C10: the card-exchange escaping function is injective — because the
backslash is escaped before semicolon, comma, and newline, every backslash in
the output begins a two-character escape pair and the encoding decodes left to
right. -/
theorem c10_vcard_escape_injective (s t : String)
    (h : vcard_escape s = vcard_escape t) : s = t := by
  rw [vcard_escape_eq, vcard_escape_eq] at h
  have hd : s.toList.flatMap escChar = t.toList.flatMap escChar := by
    simpa [String.ext_iff] using h
  have h1 := decode_flatMap s.toList
  rw [hd, decode_flatMap] at h1
  exact String.ext (Option.some.inj h1).symm

/-- C10 witness: the theorem applied at a concrete string containing every
escaped character. -/
theorem c10_vcard_escape_injective_witness : ("a;b,c\\d\ne" : String) = "a;b,c\\d\ne" :=
  c10_vcard_escape_injective "a;b,c\\d\ne" "a;b,c\\d\ne" rfl

/- ---- catalog resolver: C2 ---- -/

/-- C2 counterexample: the candidate set holds an `AddressBookImages.sqlitedb`
entry at depth 3 and an `AddressBook.sqlitedb` entry at depth 2, yet the
resolver picks the images entry, whose score 13 exceeds the primary entry's 12
(its path also carries a `contacts` marker and the layout prefix); the claim's
assertion that the non-image entry always scores strictly higher fails. -/
theorem c2_counterexample :
    strIn "addressbookimages.sqlitedb" (pyLower c2img.relativePath) = true ∧
    countSep (pyLower c2img.relativePath) = 3 ∧
    strIn "addressbook.sqlitedb" (pyLower c2ab.relativePath) = true ∧
    strIn "addressbookimages.sqlitedb" (pyLower c2ab.relativePath) = false ∧
    countSep (pyLower c2ab.relativePath) = 2 ∧
    score_of c2img.relativePath = 13 ∧
    score_of c2ab.relativePath = 12 ∧
    pick_best_entry [c2img, c2ab] = some c2img ∧
    pick_best_entry [c2ab, c2img] = some c2img := by
  decide

/-- C2 amended: when the images entry is an ordinary auxiliary path — its
lowercased logical path contains neither the primary file name
`addressbook.sqlitedb` nor a `contacts` marker — the primary entry's score
strictly exceeds the images entry's score despite the latter's greater depth,
and `pick_best_entry` selects the primary entry whichever order the two
candidates were discovered in. -/
theorem c2_amended (img ab : CatRow)
    (h1 : strIn "addressbookimages.sqlitedb" (pyLower img.relativePath) = true)
    (h2 : strIn "contacts" (pyLower img.relativePath) = false)
    (h3 : strIn "addressbook.sqlitedb" (pyLower img.relativePath) = false)
    (h4 : countSep (pyLower img.relativePath) = 3)
    (h5 : strIn "addressbook.sqlitedb" (pyLower ab.relativePath) = true)
    (h6 : countSep (pyLower ab.relativePath) = 2) :
    score_of img.relativePath < score_of ab.relativePath ∧
    pick_best_entry [img, ab] = some ab ∧
    pick_best_entry [ab, img] = some ab := by
  have himg : strIn "images" (pyLower img.relativePath) = true :=
    strIn_trans (by decide) h1
  have hlt : score_of img.relativePath < score_of ab.relativePath := by
    unfold score_of
    rw [h2, h3, h4, h5, h6, himg]
    by_cases hL : strIn "application support/addressbook" (pyLower img.relativePath) = true
    all_goals by_cases hI : strIn "images" (pyLower ab.relativePath) = true
    all_goals by_cases hL2 : strIn "application support/addressbook" (pyLower ab.relativePath) = true
    all_goals simp_all
  refine ⟨hlt, ?_, ?_⟩
  · show some (if score_of img.relativePath < score_of ab.relativePath then ab else img) = some ab
    rw [if_pos hlt]
  · show some (if score_of ab.relativePath < score_of img.relativePath then img else ab) = some ab
    rw [if_neg (by omega)]

/-- C2 amended witness: the usual backup layout, with the images store beside
the primary database. -/
theorem c2_amended_witness :
    score_of "Library/AddressBook/Images/AddressBookImages.sqlitedb" <
      score_of "Library/AddressBook/AddressBook.sqlitedb" ∧
    pick_best_entry
        [⟨"f1", "HomeDomain", "Library/AddressBook/Images/AddressBookImages.sqlitedb"⟩,
         ⟨"f2", "HomeDomain", "Library/AddressBook/AddressBook.sqlitedb"⟩] =
      some ⟨"f2", "HomeDomain", "Library/AddressBook/AddressBook.sqlitedb"⟩ ∧
    pick_best_entry
        [⟨"f2", "HomeDomain", "Library/AddressBook/AddressBook.sqlitedb"⟩,
         ⟨"f1", "HomeDomain", "Library/AddressBook/Images/AddressBookImages.sqlitedb"⟩] =
      some ⟨"f2", "HomeDomain", "Library/AddressBook/AddressBook.sqlitedb"⟩ :=
  c2_amended
    ⟨"f1", "HomeDomain", "Library/AddressBook/Images/AddressBookImages.sqlitedb"⟩
    ⟨"f2", "HomeDomain", "Library/AddressBook/AddressBook.sqlitedb"⟩
    (by decide) (by decide) (by decide) (by decide) (by decide) (by decide)

/- ---- legacy classifier: supporting lemmas ---- -/

theorem classifyMV_sound (label_map : Int → Option String) (r : MVRow) (rel : RelKind)
    (s : String) (h : classifyMV label_map r = some (rel, s)) :
    r.value ≠ SqlVal.null ∧ s = pyStrip (pyStr r.value) ∧ s ≠ "" := by
  obtain ⟨rid, prop, v, lab⟩ := r
  cases v with
  | null => exact absurd h (by simp [classifyMV])
  | intV n =>
    simp only [classifyMV] at h
    split at h
    · exact absurd h (by simp)
    · rename_i hsv
      rcases Option.map_eq_some'.1 h with ⟨rl, hcl, heq⟩
      injection heq with h1 h2
      exact ⟨by simp, h2.symm, h2 ▸ hsv⟩
  | textV s0 =>
    simp only [classifyMV] at h
    split at h
    · exact absurd h (by simp)
    · rename_i hsv
      rcases Option.map_eq_some'.1 h with ⟨rl, hcl, heq⟩
      injection heq with h1 h2
      exact ⟨by simp, h2.symm, h2 ▸ hsv⟩

theorem addVal_mem (m : MapsT) (rel rel' : RelKind) (k k' : SqlVal) (s v : String)
    (h : v ∈ addVal m rel k s rel' k') :
    v ∈ m rel' k' ∨ (v = s ∧ rel' = rel ∧ k' = k) := by
  unfold addVal at h
  split at h
  · rename_i hc
    rcases List.mem_append.1 h with h' | h'
    · exact Or.inl h'
    · exact Or.inr ⟨List.mem_singleton.1 h', hc.1, hc.2⟩
  · exact Or.inl h

theorem processMVRow_mem (label_map : Int → Option String) (m : MapsT) (r : MVRow)
    (rel : RelKind) (k : SqlVal) (v : String) (h : v ∈ processMVRow label_map m r rel k) :
    v ∈ m rel k ∨ classifyMV label_map r = some (rel, v) := by
  unfold processMVRow at h
  cases hc : classifyMV label_map r with
  | none => rw [hc] at h; exact Or.inl h
  | some p =>
    obtain ⟨rl, sv⟩ := p
    rw [hc] at h
    rcases addVal_mem m rl rel r.record_id k sv v h with h' | ⟨rfl, rfl, _⟩
    · exact Or.inl h'
    · exact Or.inr rfl

theorem foldl_processMV_mem (label_map : Int → Option String) :
    ∀ (rows : List MVRow) (m0 : MapsT) (rel : RelKind) (k : SqlVal) (v : String),
      v ∈ (rows.foldl (processMVRow label_map) m0) rel k →
      v ∈ m0 rel k ∨ ∃ r ∈ rows, classifyMV label_map r = some (rel, v) := by
  intro rows
  induction rows with
  | nil => intro m0 rel k v h; exact Or.inl h
  | cons r rs ih =>
    intro m0 rel k v h
    rcases ih (processMVRow label_map m0 r) rel k v h with h' | ⟨r', hr', hcl⟩
    · rcases processMVRow_mem label_map m0 r rel k v h' with h'' | hcl
      · exact Or.inl h''
      · exact Or.inr ⟨r, List.mem_cons_self r rs, hcl⟩
    · exact Or.inr ⟨r', List.mem_cons_of_mem r hr', hcl⟩

/- ---- C4 ---- -/

/-- C4: the legacy classification rules run in the fixed order phone, email,
address, url with first match winning, and the phone rule fires when the
normalized label contains a phone-indicating substring OR the property code is
3 or 7 — so a row whose label contains `mobile` is classified as phone for
every property code, including codes that would match later rules. -/
theorem c4_phone_priority (label_map : Int → Option String) (r : MVRow)
    (hnn : r.value ≠ SqlVal.null) (hsv : pyStrip (pyStr r.value) ≠ "")
    (hp : strIn "mobile" (norm_label label_map r.label) = true ∨
      phoneRule (norm_label label_map r.label) r.property = true) :
    classifyMV label_map r = some (RelKind.phones, pyStrip (pyStr r.value)) := by
  have hrule : phoneRule (norm_label label_map r.label) r.property = true := by
    rcases hp with h | h
    · simp [phoneRule, h]
    · exact h
  obtain ⟨rid, prop, v, lab⟩ := r
  simp only at hrule hsv hnn ⊢
  cases v with
  | null => exact absurd rfl hnn
  | intV n =>
    simp only [classifyMV]
    rw [if_neg hsv]
    simp [classifyCat, hrule]
  | textV s0 =>
    simp only [classifyMV]
    rw [if_neg hsv]
    simp [classifyCat, hrule]

/-- C4 witness row: label `mobile`, property code 6 (the address code),
non-empty value. -/
def c4row : MVRow := ⟨.intV 1, .intV 6, .textV "0170", .textV "mobile"⟩

/-- C4 witness: the theorem applied to `c4row` under the empty label map. -/
theorem c4_phone_priority_witness :
    classifyMV (fun _ => none) c4row = some (RelKind.phones, pyStrip (pyStr c4row.value)) :=
  c4_phone_priority (fun _ => none) c4row (by decide) (by decide) (Or.inl (by decide))

/- ---- C5 ---- -/

theorem mem_of_infixB_single {c : Char} {l : List Char} (h : infixB [c] l = true) :
    c ∈ l := by
  rw [infixB_iff] at h
  obtain ⟨a, b, rfl⟩ := h
  simp

theorem isSpaceB_of_isDigit (c : Char) (h : c.isDigit = true) : isSpaceB c = false := by
  by_contra hcon
  have htrue : isSpaceB c = true := by revert hcon; cases isSpaceB c <;> simp
  have hcases : c = ' ' ∨ c = '\t' ∨ c = '\n' ∨ c = '\r' ∨ c = '\x0b' ∨ c = '\x0c' := by
    have := htrue
    simp only [isSpaceB, Bool.or_eq_true, decide_eq_true_eq] at this
    tauto
  rcases hcases with rfl | rfl | rfl | rfl | rfl | rfl <;> exact absurd h (by decide)

/-- C5: on a legacy row on which none of the four label/property rules
matched, the shape heuristic decides: a string value containing `@` is
classified as email; otherwise a string value with at least 7 digit characters
is classified as phone; otherwise the row is dropped and leaves every map —
hence every contact's collections — unchanged. A non-string value contains no
`@` and no digit characters, and such an unmatched row is likewise dropped
(the heuristic's `isinstance(val, str)` guard). -/
theorem c5_shape_heuristic (label_map : Int → Option String) (r : MVRow)
    (h1 : phoneRule (norm_label label_map r.label) r.property = false)
    (h2 : emailRule (norm_label label_map r.label) r.property = false)
    (h3 : addrRule (norm_label label_map r.label) r.property = false)
    (h4 : urlRule (norm_label label_map r.label) = false) :
    (∀ s, r.value = SqlVal.textV s → strIn "@" s = true →
      classifyMV label_map r = some (RelKind.emails, pyStrip s)) ∧
    (∀ s, r.value = SqlVal.textV s → strIn "@" s = false → 7 ≤ digitCount s →
      classifyMV label_map r = some (RelKind.phones, pyStrip s)) ∧
    (∀ s, r.value = SqlVal.textV s → strIn "@" s = false → digitCount s < 7 →
      classifyMV label_map r = none ∧
        ∀ m : MapsT, processMVRow label_map m r = m) ∧
    (∀ n : Int, r.value = SqlVal.intV n →
      classifyMV label_map r = none ∧
        ∀ m : MapsT, processMVRow label_map m r = m) := by
  obtain ⟨rid, prop, v, lab⟩ := r
  simp only at h1 h2 h3 h4
  refine ⟨?_, ?_, ?_, ?_⟩ -- the shape-heuristic outcomes
  · intro s hv hA
    simp only at hv
    subst hv
    have hmem : '@' ∈ s.toList := mem_of_infixB_single (by simpa [strIn] using hA)
    have hsv : pyStrip s ≠ "" := pyStrip_ne_empty hmem (by decide)
    simp only [classifyMV]
    rw [if_neg (by simpa [pyStr] using hsv)]
    simp [classifyCat, shapeEmailB, shapePhoneB, h1, h2, h3, h4, hA, pyStr]
  · intro s hv hA hdc
    simp only at hv
    subst hv
    have hdigit : ∃ c ∈ s.toList, c.isDigit := by
      have : 0 < s.toList.countP Char.isDigit := by
        have := hdc
        unfold digitCount at this
        omega
      simpa using List.countP_pos_iff.1 this
    obtain ⟨c, hcmem, hcdig⟩ := hdigit
    have hsv : pyStrip s ≠ "" := pyStrip_ne_empty hcmem (isSpaceB_of_isDigit c hcdig)
    simp only [classifyMV]
    rw [if_neg (by simpa [pyStr] using hsv)]
    simp [classifyCat, shapeEmailB, shapePhoneB, h1, h2, h3, h4, hA,
      decide_eq_true hdc, pyStr]
  · intro s hv hA hdc
    simp only at hv
    subst hv
    have hcl : classifyMV label_map ⟨rid, prop, SqlVal.textV s, lab⟩ = none := by
      by_cases hsv : pyStrip s = ""
      · simp only [classifyMV]
        rw [if_pos (by simpa [pyStr] using hsv)]
      · simp only [classifyMV]
        rw [if_neg (by simpa [pyStr] using hsv)]
        have hd : decide (7 ≤ digitCount s) = false := by
          simp
          omega
        simp [classifyCat, shapeEmailB, shapePhoneB, h1, h2, h3, h4, hA, hd]
    refine ⟨hcl, ?_⟩
    intro m
    unfold processMVRow
    rw [hcl]
  · intro n hv
    simp only at hv
    subst hv
    have hcl : classifyMV label_map ⟨rid, prop, SqlVal.intV n, lab⟩ = none := by
      by_cases hsv : pyStrip (pyStr (SqlVal.intV n)) = ""
      · simp only [classifyMV]
        rw [if_pos hsv]
      · simp only [classifyMV]
        rw [if_neg hsv]
        simp [classifyCat, shapeEmailB, shapePhoneB, h1, h2, h3, h4]
    refine ⟨hcl, ?_⟩
    intro m
    unfold processMVRow
    rw [hcl]

/-- C5 witness rows: value `a@b` (email by shape), value `555-1234` (7 digits,
phone by shape), value `abc` (dropped), and the INTEGER value `5551234`
(dropped: not a string); no rule matches any of them. -/
theorem c5_shape_heuristic_witness :
    (classifyMV (fun _ => none) ⟨.intV 1, .intV 0, .textV "a@b", .textV ""⟩ =
        some (RelKind.emails, pyStrip "a@b")) ∧
    (classifyMV (fun _ => none) ⟨.intV 1, .intV 0, .textV "555-1234", .textV ""⟩ =
        some (RelKind.phones, pyStrip "555-1234")) ∧
    (classifyMV (fun _ => none) ⟨.intV 1, .intV 0, .textV "abc", .textV ""⟩ = none) ∧
    (classifyMV (fun _ => none) ⟨.intV 1, .intV 0, .intV 5551234, .textV ""⟩ = none) := by
  refine ⟨?_, ?_, ?_, ?_⟩
  · exact (c5_shape_heuristic (fun _ => none) ⟨.intV 1, .intV 0, .textV "a@b", .textV ""⟩
      (by decide) (by decide) (by decide) (by decide)).1 "a@b" rfl (by decide)
  · exact (c5_shape_heuristic (fun _ => none) ⟨.intV 1, .intV 0, .textV "555-1234", .textV ""⟩
      (by decide) (by decide) (by decide) (by decide)).2.1 "555-1234" rfl
      (by decide) (by decide)
  · exact ((c5_shape_heuristic (fun _ => none) ⟨.intV 1, .intV 0, .textV "abc", .textV ""⟩
      (by decide) (by decide) (by decide) (by decide)).2.2.1 "abc" rfl
      (by decide) (by decide)).1
  · exact ((c5_shape_heuristic (fun _ => none) ⟨.intV 1, .intV 0, .intV 5551234, .textV ""⟩
      (by decide) (by decide) (by decide) (by decide)).2.2.2 5551234 rfl).1

/- ---- modern child maps: supporting lemmas ---- -/

theorem childStep_mem (o v : String) (m : SqlVal → List String) (row : String → SqlVal)
    (k : SqlVal) (s : String) (h : s ∈ childStep o v m row k) :
    s ∈ m k ∨ (row v ≠ SqlVal.null ∧ s = pyStr (row v)) := by
  unfold childStep at h
  split at h
  · exact Or.inl h
  · rename_i hnn
    change s ∈ if k = row o then m k ++ [pyStr (row v)] else m k at h
    split at h
    · rcases List.mem_append.1 h with h' | h'
      · exact Or.inl h'
      · exact Or.inr ⟨hnn, List.mem_singleton.1 h'⟩
    · exact Or.inl h

theorem locate_child_table (db : DB) :
    ∀ (tbls owners values : List String) (t o v : String),
      locate_child db tbls owners values = some (t, o, v) →
      ∃ tb, getTable db t = some tb ∧ pick_col tb owners = some o ∧
        pick_col tb values = some v := by
  intro tbls
  induction tbls with
  | nil => intro owners values t o v h; exact absurd h (by simp [locate_child])
  | cons hd ts ih =>
    intro owners values t o v h
    cases hgt : getTable db hd with
    | none =>
      simp only [locate_child, hgt] at h
      exact ih owners values t o v h
    | some tb =>
      cases hpo : pick_col tb owners with
      | none =>
        simp only [locate_child, hgt, hpo] at h
        exact ih owners values t o v h
      | some o' =>
        cases hpv : pick_col tb values with
        | none =>
          simp only [locate_child, hgt, hpo, hpv] at h
          exact ih owners values t o v h
        | some v' =>
          simp only [locate_child, hgt, hpo, hpv, Option.some.injEq, Prod.mk.injEq] at h
          obtain ⟨rfl, rfl, rfl⟩ := h
          exact ⟨tb, hgt, hpo, hpv⟩

theorem childMapsOf_eq_none (db : DB) (rel : RelKind)
    (h : locate_child db (relTables rel) relOwnerCands (relValues rel) = none) :
    childMapsOf db rel = fun _ => [] := by
  unfold childMapsOf
  rw [h]

theorem childMapsOf_eq_some (db : DB) (rel : RelKind) (t o v : String) (tb : Table)
    (h : locate_child db (relTables rel) relOwnerCands (relValues rel) = some (t, o, v))
    (hg : getTable db t = some tb) :
    childMapsOf db rel = buildChildMap tb o v := by
  unfold childMapsOf
  rw [h]
  show (match getTable db t with
    | none => fun _ => ([] : List String)
    | some tb => buildChildMap tb o v) = buildChildMap tb o v
  rw [hg]

theorem foldl_childStep_mem (o v : String) :
    ∀ (rows : List (String → SqlVal)) (m0 : SqlVal → List String) (k : SqlVal) (s : String),
      s ∈ (rows.foldl (childStep o v) m0) k →
      s ∈ m0 k ∨ ∃ row ∈ rows, row v ≠ SqlVal.null ∧ s = pyStr (row v) := by
  intro rows
  induction rows with
  | nil => intro m0 k s h; exact Or.inl h
  | cons row rs ih =>
    intro m0 k s h
    rcases ih (childStep o v m0 row) k s h with h' | ⟨row', hrow', hp⟩
    · rcases childStep_mem o v m0 row k s h' with h'' | hp
      · exact Or.inl h''
      · exact Or.inr ⟨row, List.mem_cons_self row rs, hp⟩
    · exact Or.inr ⟨row', List.mem_cons_of_mem row hrow', hp⟩

/- ---- C1 ---- -/

/-- C1 counterexample database: one person, and one phone row whose value is
the non-NULL empty string. -/
def c1db : DB :=
  ⟨[("ZABCDRECORD", ⟨["Z_PK"], [fun c => if c = "Z_PK" then .intV 1 else .null]⟩),
    ("ZABCDPHONENUMBER", ⟨["ZOWNER", "ZFULLNUMBER"],
      [fun c => if c = "ZOWNER" then .intV 1
        else if c = "ZFULLNUMBER" then .textV "" else .null]⟩)]⟩

/-- C1 counterexample: the modern loader retains a non-NULL empty-string
source value as an empty-string element of the contact's phone collection —
the claimed invariant fails for the Core Data schema family. -/
theorem c1_counterexample :
    (load_contacts_from_coredata_schema c1db).map (fun cs => cs.map Contact.phones) =
      Except.ok [[""]] := by
  rfl

/-- C1 amended: in the legacy family every element of every contact's
auxiliary collections is a non-empty stripped string coming from a non-NULL
source value; in the modern family every element is `str(value)` of a
non-NULL value of the located child table — empty or whitespace-only strings
included, since that path drops only NULL values. -/
theorem c1_amended :
    (∀ (label_map : Int → Option String) (persons : List ABPersonRow)
      (mv_rows : List MVRow) (c : Contact) (rel : RelKind) (v : String),
      c ∈ load_contacts_from_ab_schema label_map persons mv_rows →
      v ∈ c.aux rel →
      v ≠ "" ∧ ∃ r ∈ mv_rows, r.value ≠ SqlVal.null ∧ v = pyStrip (pyStr r.value)) ∧
    (∀ (db : DB) (cs : List Contact) (c : Contact) (rel : RelKind) (s : String),
      load_contacts_from_coredata_schema db = .ok cs → c ∈ cs → s ∈ c.aux rel →
      ∃ t o v tb,
        locate_child db (relTables rel) relOwnerCands (relValues rel) = some (t, o, v) ∧
        getTable db t = some tb ∧
        ∃ row ∈ tb.rows, row v ≠ SqlVal.null ∧ s = pyStr (row v)) := by
  constructor
  · intro label_map persons mv_rows c rel v hc hv
    simp only [load_contacts_from_ab_schema] at hc
    rcases List.mem_map.1 hc with ⟨p, hp, rfl⟩
    have hv' : v ∈ (mv_rows.foldl (processMVRow label_map) emptyMaps) rel p.id := by
      cases rel <;> exact hv
    rcases foldl_processMV_mem label_map mv_rows emptyMaps rel p.id v hv' with h0 | ⟨r, hr, hcl⟩
    · exact absurd h0 (List.not_mem_nil v)
    · obtain ⟨hnn, heq, hne⟩ := classifyMV_sound label_map r rel v hcl
      exact ⟨hne, r, hr, hnn, heq⟩
  · intro db cs c rel s hok hc hs
    unfold load_contacts_from_coredata_schema at hok
    cases hpt : personTableOf db with
    | none => rw [hpt] at hok; exact absurd hok (by simp)
    | some ptb =>
      obtain ⟨t0, tb0⟩ := ptb
      rw [hpt] at hok
      injection hok with hok
      subst hok
      rcases List.mem_map.1 hc with ⟨row, hrow, rfl⟩
      have hs' : s ∈ childMapsOf db rel (row "Z_PK") := by
        cases rel <;> exact hs
      cases hloc : locate_child db (relTables rel) relOwnerCands (relValues rel) with
      | none =>
        rw [childMapsOf_eq_none db rel hloc] at hs'
        exact absurd hs' (List.not_mem_nil s)
      | some tov =>
        obtain ⟨t, o, v⟩ := tov
        obtain ⟨tb, hgt, -, -⟩ := locate_child_table db _ _ _ t o v hloc
        rw [childMapsOf_eq_some db rel t o v tb hloc hgt] at hs'
        rcases foldl_childStep_mem o v tb.rows (fun _ => []) (row "Z_PK") s hs' with
          h0 | hex
        · exact absurd h0 (List.not_mem_nil s)
        · exact ⟨t, o, v, tb, rfl, hgt, hex⟩

/-- C1 witness database: the modern schema with a genuine phone value. -/
def c1wdb : DB :=
  ⟨[("ZABCDRECORD", ⟨["Z_PK"], [fun c => if c = "Z_PK" then .intV 1 else .null]⟩),
    ("ZABCDPHONENUMBER", ⟨["ZOWNER", "ZFULLNUMBER"],
      [fun c => if c = "ZOWNER" then .intV 1
        else if c = "ZFULLNUMBER" then .textV "0170" else .null]⟩)]⟩

/-- C1 witness: both halves of the amended invariant instantiated on concrete
databases. -/
theorem c1_amended_witness :
    (("123" : String) ≠ "" ∧
      ∃ r ∈ [(⟨.intV 1, .intV 3, .textV " 123 ", .null⟩ : MVRow)],
        r.value ≠ SqlVal.null ∧ "123" = pyStrip (pyStr r.value)) ∧
    (∃ t o v tb,
      locate_child c1wdb (relTables .phones) relOwnerCands (relValues .phones) =
        some (t, o, v) ∧
      getTable c1wdb t = some tb ∧
      ∃ row ∈ tb.rows, row v ≠ SqlVal.null ∧ "0170" = pyStr (row v)) := by
  constructor
  · exact c1_amended.1 (fun _ => none) [⟨.intV 1, .null, .null, .null, .null, .null⟩]
      [⟨.intV 1, .intV 3, .textV " 123 ", .null⟩]
      ⟨.intV 1, .textV "", .textV "", .textV "", .textV "", .textV "", ["123"], [], [], []⟩
      RelKind.phones "123" (by decide) (by decide)
  · exact c1_amended.2 c1wdb
      [⟨.intV 1, .textV "", .textV "", .textV "", .textV "", .textV "", ["0170"], [], [], []⟩]
      ⟨.intV 1, .textV "", .textV "", .textV "", .textV "", .textV "", ["0170"], [], [], []⟩
      RelKind.phones "0170" rfl (by decide) (by decide)

/- ---- C6 ---- -/

theorem projField_absent (tb : Table) (cands : List String) (row : String → SqlVal)
    (h : ∀ a ∈ cands, a ∉ tb.cols) : pyOr (projField tb cands row) = SqlVal.textV "" := by
  have hpc : pick_col tb cands = none := by
    rw [pick_col, List.find?_eq_none]
    intro a ha
    simp [h a ha]
  rw [projField, hpc]
  rfl

/-- C6: when no alias of an optional role matches the person table's actual
columns, the modern loader still succeeds: an absent first/middle/last name,
organization, or note role projects as the empty string in every contact, and
an absent deletion-flag role leaves every person row in the output (treated
as not deleted). -/
theorem c6_optional_roles (db : DB) (t : String) (tb : Table)
    (hpt : personTableOf db = some (t, tb)) :
    ∃ cs, load_contacts_from_coredata_schema db = .ok cs ∧
      ((∀ a ∈ firstAliases, a ∉ tb.cols) → ∀ c ∈ cs, c.first = SqlVal.textV "") ∧
      ((∀ a ∈ midAliases, a ∉ tb.cols) → ∀ c ∈ cs, c.middle = SqlVal.textV "") ∧
      ((∀ a ∈ lastAliases, a ∉ tb.cols) → ∀ c ∈ cs, c.last = SqlVal.textV "") ∧
      ((∀ a ∈ orgAliases, a ∉ tb.cols) → ∀ c ∈ cs, c.org = SqlVal.textV "") ∧
      ((∀ a ∈ noteAliases, a ∉ tb.cols) → ∀ c ∈ cs, c.note = SqlVal.textV "") ∧
      ((∀ a ∈ delAliases, a ∉ tb.cols) → cs.length = tb.rows.length) := by
  refine ⟨_, by unfold load_contacts_from_coredata_schema; rw [hpt],
    ?_, ?_, ?_, ?_, ?_, ?_⟩
  · intro habs c hc
    rcases List.mem_map.1 hc with ⟨row, hrow, rfl⟩
    exact projField_absent tb firstAliases row habs
  · intro habs c hc
    rcases List.mem_map.1 hc with ⟨row, hrow, rfl⟩
    exact projField_absent tb midAliases row habs
  · intro habs c hc
    rcases List.mem_map.1 hc with ⟨row, hrow, rfl⟩
    exact projField_absent tb lastAliases row habs
  · intro habs c hc
    rcases List.mem_map.1 hc with ⟨row, hrow, rfl⟩
    exact projField_absent tb orgAliases row habs
  · intro habs c hc
    rcases List.mem_map.1 hc with ⟨row, hrow, rfl⟩
    exact projField_absent tb noteAliases row habs
  · intro habs
    have hpc : pick_col tb delAliases = none := by
      rw [pick_col, List.find?_eq_none]
      intro a ha
      simp [habs a ha]
    have hfil : tb.rows.filter (fun row => !pyTruthy (projDel tb row)) = tb.rows := by
      rw [List.filter_eq_self]
      intro row _
      rw [projDel, hpc]
      rfl
    rw [hfil, List.length_map]

/-- C6 witness person table: only `Z_PK` and `ZFIRSTNAME` columns — no
middle-name alias and no deletion-flag alias present. -/
def c6tb : Table :=
  ⟨["Z_PK", "ZFIRSTNAME"],
    [fun c => if c = "Z_PK" then .intV 1
      else if c = "ZFIRSTNAME" then .textV "Ada" else .null]⟩

/-- C6 witness database. -/
def c6db : DB := ⟨[("ZABCDRECORD", c6tb)]⟩

/-- C6 witness: the theorem applied to `c6db`. -/
theorem c6_optional_roles_witness :
    ∃ cs, load_contacts_from_coredata_schema c6db = .ok cs ∧
      ((∀ a ∈ firstAliases, a ∉ c6tb.cols) → ∀ c ∈ cs, c.first = SqlVal.textV "") ∧
      ((∀ a ∈ midAliases, a ∉ c6tb.cols) → ∀ c ∈ cs, c.middle = SqlVal.textV "") ∧
      ((∀ a ∈ lastAliases, a ∉ c6tb.cols) → ∀ c ∈ cs, c.last = SqlVal.textV "") ∧
      ((∀ a ∈ orgAliases, a ∉ c6tb.cols) → ∀ c ∈ cs, c.org = SqlVal.textV "") ∧
      ((∀ a ∈ noteAliases, a ∉ c6tb.cols) → ∀ c ∈ cs, c.note = SqlVal.textV "") ∧
      ((∀ a ∈ delAliases, a ∉ c6tb.cols) → cs.length = c6tb.rows.length) :=
  c6_optional_roles c6db "ZABCDRECORD" c6tb rfl

/- ---- C7 ---- -/

/-- C7: every contact output by the modern loader comes from a person row
whose resolved deletion flag is falsy; deleted rows are filtered out before
the contact (and its relation lookups) is built, so nothing of a deleted
person appears in the output. -/
theorem c7_deleted_excluded (db : DB) (cs : List Contact)
    (hok : load_contacts_from_coredata_schema db = .ok cs) :
    ∀ c ∈ cs, ∃ t tb, personTableOf db = some (t, tb) ∧
      ∃ row ∈ tb.rows, pyTruthy (projDel tb row) = false ∧
        c = mkModernContact db tb row := by
  intro c hc
  unfold load_contacts_from_coredata_schema at hok
  cases hpt : personTableOf db with
  | none => rw [hpt] at hok; exact absurd hok (by simp)
  | some ptb =>
    obtain ⟨t, tb⟩ := ptb
    rw [hpt] at hok
    injection hok with hok
    subst hok
    rcases List.mem_map.1 hc with ⟨row, hrow, rfl⟩
    have hfil := List.mem_filter.1 hrow
    exact ⟨t, tb, rfl, row, hfil.1, by simpa using hfil.2, rfl⟩

/-- C7 witness: the undeleted person row. -/
def c7row1 : String → SqlVal :=
  fun c => if c = "Z_PK" then .intV 1 else if c = "ZISDELETED" then .intV 0 else .null

/-- C7 witness: the person row flagged deleted via `ZISDELETED = 1`. -/
def c7row2 : String → SqlVal :=
  fun c => if c = "Z_PK" then .intV 2 else if c = "ZISDELETED" then .intV 1 else .null

/-- C7 witness person table with both rows. -/
def c7tb : Table := ⟨["Z_PK", "ZISDELETED"], [c7row1, c7row2]⟩

/-- C7 witness database. -/
def c7db : DB := ⟨[("ZABCDRECORD", c7tb)]⟩

/-- C7 witness: the single contact the loader emits for `c7db`. -/
def c7contact : Contact := mkModernContact c7db c7tb c7row1

/-- C7 witness: the theorem applied to `c7db` and the one emitted contact —
it comes from a person row whose deletion flag is falsy. -/
theorem c7_deleted_excluded_witness :
    ∃ t tb, personTableOf c7db = some (t, tb) ∧
      ∃ row ∈ tb.rows, pyTruthy (projDel tb row) = false ∧
        c7contact = mkModernContact c7db tb row :=
  c7_deleted_excluded c7db [c7contact] rfl c7contact (List.mem_singleton.mpr rfl)

/- ---- C8 ---- -/

/-- C8: `locate_child` refines its specification — it returns the first
candidate table that exists and carries both an owner-column alias and a
value-column alias (an existing table missing either role is skipped in favor
of later candidates); when no candidate qualifies, that one relation stays
empty in every contact while the extraction itself still succeeds whenever a
person table exists. -/
theorem c8_locate_child (db : DB) (tbls owners values : List String) (rel : RelKind)
    (cs : List Contact) :
    locate_child db tbls owners values = locateChildSpec db tbls owners values ∧
    (load_contacts_from_coredata_schema db = .ok cs →
      locate_child db (relTables rel) relOwnerCands (relValues rel) = none →
      ∀ c ∈ cs, c.aux rel = []) ∧
    (∀ t tb, personTableOf db = some (t, tb) →
      ∃ cs', load_contacts_from_coredata_schema db = .ok cs') := by
  refine ⟨?_, ?_, ?_⟩
  · induction tbls with
    | nil => rfl
    | cons hd ts ih =>
      cases hgt : getTable db hd with
      | none =>
        have hgood : goodChild db owners values hd = false := by
          simp [goodChild, hgt]
        calc locate_child db (hd :: ts) owners values
            = locate_child db ts owners values := by simp only [locate_child, hgt]
          _ = locateChildSpec db ts owners values := ih
          _ = locateChildSpec db (hd :: ts) owners values := by
              unfold locateChildSpec
              rw [List.find?_cons_of_neg _ (by simp [hgood])]
      | some tb =>
        cases hpo : pick_col tb owners with
        | none =>
          have hgood : goodChild db owners values hd = false := by
            simp [goodChild, hgt, hpo]
          calc locate_child db (hd :: ts) owners values
              = locate_child db ts owners values := by
                simp only [locate_child, hgt, hpo]
            _ = locateChildSpec db ts owners values := ih
            _ = locateChildSpec db (hd :: ts) owners values := by
                unfold locateChildSpec
                rw [List.find?_cons_of_neg _ (by simp [hgood])]
        | some o' =>
          cases hpv : pick_col tb values with
          | none =>
            have hgood : goodChild db owners values hd = false := by
              simp [goodChild, hgt, hpo, hpv]
            calc locate_child db (hd :: ts) owners values
                = locate_child db ts owners values := by
                  simp only [locate_child, hgt, hpo, hpv]
              _ = locateChildSpec db ts owners values := ih
              _ = locateChildSpec db (hd :: ts) owners values := by
                  unfold locateChildSpec
                  rw [List.find?_cons_of_neg _ (by simp [hgood])]
          | some v' =>
            have hgood : goodChild db owners values hd = true := by
              simp [goodChild, hgt, hpo, hpv]
            have hloc : locate_child db (hd :: ts) owners values = some (hd, o', v') := by
              simp only [locate_child, hgt, hpo, hpv]
            have hspec : locateChildSpec db (hd :: ts) owners values = some (hd, o', v') := by
              unfold locateChildSpec
              rw [List.find?_cons_of_pos _ (by simp [hgood])]
              simp [hgt, hpo, hpv]
            rw [hloc, hspec]
  · intro hok hnone c hc
    unfold load_contacts_from_coredata_schema at hok
    cases hpt : personTableOf db with
    | none => rw [hpt] at hok; exact absurd hok (by simp)
    | some ptb =>
      obtain ⟨t0, tb0⟩ := ptb
      rw [hpt] at hok
      injection hok with hok
      subst hok
      rcases List.mem_map.1 hc with ⟨row, hrow, rfl⟩
      have hmaps := childMapsOf_eq_none db rel hnone
      cases rel with
      | phones =>
        show childMapsOf db RelKind.phones (row "Z_PK") = []
        rw [hmaps]
      | emails =>
        show childMapsOf db RelKind.emails (row "Z_PK") = []
        rw [hmaps]
      | addresses =>
        show childMapsOf db RelKind.addresses (row "Z_PK") = []
        rw [hmaps]
      | urls =>
        show childMapsOf db RelKind.urls (row "Z_PK") = []
        rw [hmaps]
  · intro t tb hpt
    exact ⟨_, by unfold load_contacts_from_coredata_schema; rw [hpt]⟩

/-- C8 witness person table. -/
def c8tb : Table := ⟨["Z_PK"], [fun c => if c = "Z_PK" then .intV 1 else .null]⟩

/-- C8 witness database: `ZPHONE` exists but carries neither an owner nor a
value alias (so the phones relation is unlocatable), while `ZEMAIL` carries
both and feeds the emails relation. -/
def c8db : DB :=
  ⟨[("ZABCDRECORD", c8tb),
    ("ZPHONE", ⟨["ZX"], []⟩),
    ("ZEMAIL", ⟨["ZOWNER", "ZADDRESS"],
      [fun c => if c = "ZOWNER" then .intV 1
        else if c = "ZADDRESS" then .textV "a@b" else .null]⟩)]⟩

/-- C8 witness output: one contact, phones skipped as empty, emails populated. -/
def c8out : List Contact :=
  [⟨.intV 1, .textV "", .textV "", .textV "", .textV "", .textV "", [], ["a@b"], [], []⟩]

/-- C8 witness: the theorem applied to `c8db` for the phones relation, with the
implications discharged on the concrete data. -/
theorem c8_locate_child_witness :
    locate_child c8db (relTables .phones) relOwnerCands (relValues .phones) =
      locateChildSpec c8db (relTables .phones) relOwnerCands (relValues .phones) ∧
    (∀ c ∈ c8out, c.aux .phones = []) ∧
    (∃ cs', load_contacts_from_coredata_schema c8db = .ok cs') :=
  have h := c8_locate_child c8db (relTables .phones) relOwnerCands (relValues .phones)
    .phones c8out
  ⟨h.1, h.2.1 rfl rfl, h.2.2 "ZABCDRECORD" c8tb rfl⟩

/- ---- C9 ---- -/

theorem dedupGo_sublist : ∀ (l : List CatRow) (seen : List String),
    List.Sublist (dedupGo seen l) l := by
  intro l
  induction l with
  | nil => intro seen; exact List.Sublist.refl _
  | cons x xs ih =>
    intro seen
    unfold dedupGo
    split
    · exact (ih seen).cons x
    · exact (ih _).cons₂ x

theorem dedupGo_not_seen : ∀ (l : List CatRow) (seen : List String) (r : CatRow),
    r ∈ dedupGo seen l → r.fileID ∉ seen := by
  intro l
  induction l with
  | nil => intro seen r h; exact absurd h (List.not_mem_nil r)
  | cons x xs ih =>
    intro seen r h
    unfold dedupGo at h
    split at h
    · exact ih seen r h
    · rename_i hx
      rcases List.mem_cons.1 h with rfl | h'
      · exact hx
      · intro hc
        exact ih _ r h' (List.mem_cons_of_mem _ hc)

theorem dedupGo_nodup : ∀ (l : List CatRow) (seen : List String),
    ((dedupGo seen l).map CatRow.fileID).Nodup := by
  intro l
  induction l with
  | nil => intro seen; simp [dedupGo]
  | cons x xs ih =>
    intro seen
    unfold dedupGo
    split
    · exact ih seen
    · simp only [List.map_cons, List.nodup_cons]
      refine ⟨?_, ih _⟩
      intro hmem
      rcases List.mem_map.1 hmem with ⟨r, hr, hfid⟩
      exact dedupGo_not_seen xs (x.fileID :: seen) r hr
        (by rw [hfid]; exact List.mem_cons_self _ _)

theorem dedupGo_complete : ∀ (l : List CatRow) (seen : List String) (r : CatRow),
    r ∈ l → r.fileID ∉ seen → ∃ r' ∈ dedupGo seen l, r'.fileID = r.fileID := by
  intro l
  induction l with
  | nil => intro seen r h; exact absurd h (List.not_mem_nil r)
  | cons x xs ih =>
    intro seen r hmem hns
    unfold dedupGo
    split
    · rename_i hx
      rcases List.mem_cons.1 hmem with rfl | h'
      · exact absurd hx hns
      · exact ih seen r h' hns
    · rename_i hx
      rcases List.mem_cons.1 hmem with he | h'
      · exact ⟨x, List.mem_cons_self _ _, (congrArg CatRow.fileID he).symm⟩
      · by_cases hid : r.fileID = x.fileID
        · exact ⟨x, List.mem_cons_self _ _, hid.symm⟩
        · obtain ⟨r', hr', heq⟩ := ih (x.fileID :: seen) r h'
            (by
              intro hc
              rcases List.mem_cons.1 hc with he | he
              · exact hid he
              · exact hns he)
          exact ⟨r', List.mem_cons_of_mem _ hr', heq⟩

theorem dedupGo_first : ∀ (l : List CatRow) (seen : List String) (r' : CatRow),
    r' ∈ dedupGo seen l →
    l.find? (fun x => decide (x.fileID = r'.fileID)) = some r' := by
  intro l
  induction l with
  | nil => intro seen r' h; exact absurd h (List.not_mem_nil r')
  | cons x xs ih =>
    intro seen r' h
    unfold dedupGo at h
    split at h
    · rename_i hx
      have hne : x.fileID ≠ r'.fileID := by
        intro he
        exact dedupGo_not_seen xs seen r' h (he ▸ hx)
      rw [List.find?_cons_of_neg _ (by simp [hne])]
      exact ih seen r' h
    · rename_i hx
      rcases List.mem_cons.1 h with rfl | h'
      · rw [List.find?_cons_of_pos _ (by simp)]
      · have hne : x.fileID ≠ r'.fileID := by
          intro he
          exact dedupGo_not_seen xs (x.fileID :: seen) r' h'
            (by rw [← he]; exact List.mem_cons_self _ _)
        rw [List.find?_cons_of_neg _ (by simp [hne])]
        exact ih _ r' h'

/-- C9: `find_contact_dbs` accumulates the matches of every pattern in
pattern order and deduplicates by identity with the first occurrence winning:
the result is a sublist of the accumulated matches (so ordered by first
occurrence), carries pairwise-distinct identities, covers every accumulated
identity, and each returned row is the first accumulated row bearing its
identity — any later duplicate is discarded. -/
theorem c9_find_candidates (files : List CatRow) (pats : List (String → Bool)) :
    List.Sublist (find_contact_dbs files pats)
      (pats.flatMap (fun p => files.filter (fun r => p r.relativePath))) ∧
    ((find_contact_dbs files pats).map CatRow.fileID).Nodup ∧
    (∀ r ∈ pats.flatMap (fun p => files.filter (fun r => p r.relativePath)),
      ∃ r' ∈ find_contact_dbs files pats, r'.fileID = r.fileID) ∧
    (∀ r' ∈ find_contact_dbs files pats,
      (pats.flatMap (fun p => files.filter (fun r => p r.relativePath))).find?
        (fun x => decide (x.fileID = r'.fileID)) = some r') := by
  refine ⟨dedupGo_sublist _ [], dedupGo_nodup _ [], ?_, ?_⟩
  · intro r hr
    exact dedupGo_complete _ [] r hr (List.not_mem_nil _)
  · intro r' hr'
    exact dedupGo_first _ [] r' hr'

/-- C9 witness catalog: identity `1` occurs under two different paths, and the
second pattern matches everything. -/
def c9files : List CatRow := [⟨"1", "d", "AX"⟩, ⟨"2", "d", "AY"⟩, ⟨"1", "d", "AZ"⟩]

/-- C9 witness patterns, in order: match `Y`, then match `A`. -/
def c9pats : List (String → Bool) := [fun s => strIn "Y" s, fun s => strIn "A" s]

/-- C9 witness: for the row of identity `1` kept in the output, the first
accumulated row with that identity is exactly it. -/
theorem c9_find_candidates_witness :
    (c9pats.flatMap (fun p => c9files.filter (fun r => p r.relativePath))).find?
      (fun x => decide (x.fileID = (⟨"1", "d", "AX"⟩ : CatRow).fileID)) =
      some ⟨"1", "d", "AX"⟩ :=
  (c9_find_candidates c9files c9pats).2.2.2 ⟨"1", "d", "AX"⟩ (by decide)

end IOSContacts
